import Mathlib

/-!
Verification of the PlotJuggler video-viewer synchronization plugin
(`plotjuggler_plugins/VideoViewer/video_viewer.cpp`) and of the rule-editing
dialog's XML validation (`RuleEditing::isValidXml`).

Timestamps and values are modelled over `ℚ`.  Side effects on the external
media driver are recorded as an explicit trace of `Effect` events, in the
order the code performs them.
-/

namespace PlotJuggler

/-- Modelled from the spec: `PlotData::getYfromX` is not part of the sources
here (only its call site in `PublisherVideo::updateState` is), so the sampling
policy follows the spec's words: linear interpolation between the two
bracketing samples when the query lies within the series' time range, the
boundary sample's value (clamped, not extrapolated) when it lies outside.
This helper walks the ordered sample list; it is only invoked on a non-empty
list, and its `[]` result is an arbitrary placeholder. -/
def sampleAt : List (ℚ × ℚ) → ℚ → ℚ
  | [], _ => 0
  | [(_, v)], _ => v
  | (t0, v0) :: (t1, v1) :: rest, x =>
    if x ≤ t0 then v0
    else if x ≤ t1 then v0 + (v1 - v0) * (x - t0) / (t1 - t0)
    else sampleAt ((t1, v1) :: rest) x

/-- Modelled from the spec: `sample(query_time)` returns empty on a series
with zero samples, and otherwise the clamped/interpolated value. -/
def getYfromX (points : List (ℚ × ℚ)) (x : ℚ) : Option ℚ :=
  match points with
  | [] => none
  | _ :: _ => some (sampleAt points x)

/-- One observable interaction of `PublisherVideo::updateState` with its
collaborators, in program order: the series-repository lookup
(`_datamap->numeric.find`), the sampling call (`data.getYfromX`), the media
pause (`_dialog->pause`) and the seek (`_dialog->seekByValue`). -/
inductive Effect : Type where
  | lookup : String → Effect
  | sample : ℚ → Effect
  | pause : Bool → Effect
  | seek : ℚ → Effect
deriving DecidableEq, Repr

/-- The host-wide persisted key/value store (`QSettings`), restricted to the
keys `PublisherVideo` touches: `VideoDialog::video_file`,
`VideoDialog::curve_name` and `VideoDialog::geometry`. -/
structure Settings where
  video_file : String
  curve_name : String
  geometry : String
deriving DecidableEq, Repr

/-- The state of the `PublisherVideo` component together with its
`VideoDialog`: visibility (`isHidden`), media pause state (`isPaused`),
the media source path shown in `lineFilename`, the selected reference
curve name in `lineEditReference` (returned by `referenceCurve()`),
the `radioButtonFrame` flag, the `_xml_loaded` flag, the dialog geometry,
and a read-only view of the host's numeric series map `_datamap->numeric`. -/
structure PublisherVideo where
  hidden : Bool
  paused : Bool
  lineFilename : String
  lineEditReference : String
  useFrame : Bool
  xml_loaded : Bool
  geometry : String
  datamap : List (String × List (ℚ × ℚ))
deriving DecidableEq, Repr

/-- `_datamap->numeric.find(name)`: association-list lookup of a series by
name. -/
def lookupNumeric : List (String × List (ℚ × ℚ)) → String → Option (List (ℚ × ℚ))
  | [], _ => none
  | (k, v) :: rest, name => if k = name then some v else lookupNumeric rest name

/-- `PublisherVideo::updateState(current_time)`: return early when the dialog
is hidden or the reference curve name is empty; otherwise look the series up
(no-op when absent), sample it at `current_time` (no-op when the sample is
empty), and on success pause the media stream first — only when it is not
already paused — and seek to the sampled value.  The returned trace lists the
collaborator calls in program order.  Modelled from the spec where the
collaborators are outside the sources: `referenceCurve()` returns the
reference line edit's text, and `pause(true)` leaves the stream paused. -/
def updateState (s : PublisherVideo) (t : ℚ) : PublisherVideo × List Effect :=
  if s.hidden then (s, [])
  else if s.lineEditReference = "" then (s, [])
  else
    match lookupNumeric s.datamap s.lineEditReference with
    | none => (s, [Effect.lookup s.lineEditReference])
    | some data =>
      match getYfromX data t with
      | none => (s, [Effect.lookup s.lineEditReference, Effect.sample t])
      | some v =>
        if s.paused then
          (s, [Effect.lookup s.lineEditReference, Effect.sample t, Effect.seek v])
        else
          ({ s with paused := true },
           [Effect.lookup s.lineEditReference, Effect.sample t,
            Effect.pause true, Effect.seek v])

/-- `PublisherVideo::play(current_time)`: delegates to `updateState`. -/
def play (s : PublisherVideo) (t : ℚ) : PublisherVideo × List Effect :=
  updateState s t

/-- `PublisherVideo::commaLoadVideoFromEnvironment()`: when both `VIDEO_PATH`
and `VIDEO_REFERENCE_CURVE` are set, write them into the persisted store's
`video_file` and `curve_name` keys and report `true`; otherwise leave the
store unchanged and report `false`.  (The `loadDirectory` bookkeeping touches
no key read back by this component and is not modelled.) -/
def commaLoadVideoFromEnvironment (env : Option String × Option String)
    (st : Settings) : Settings × Bool :=
  match env with
  | (some videoPath, some referenceCurve) =>
    ({ st with video_file := videoPath, curve_name := referenceCurve }, true)
  | _ => (st, false)

/-- Modelled from the spec: `VideoDialog::loadFile(filename)` applies the
given media source path to the component. -/
def loadFile (s : PublisherVideo) (filename : String) : PublisherVideo :=
  { s with lineFilename := filename }

/-- `PublisherVideo::setEnabled(enabled)`: first sync the store from the
environment; on enable, when no XML state was loaded or the environment forces
a video, load the media path (reloading the file only when it differs or the
environment forces it), the curve name and the geometry from the store, then
show the dialog; on disable, save the media path, curve name and geometry to
the store and hide the dialog. -/
def setEnabled (env : Option String × Option String) (enabled : Bool)
    (s : PublisherVideo) (st : Settings) : PublisherVideo × Settings :=
  let sync := commaLoadVideoFromEnvironment env st
  let st1 := sync.1
  let useCommaVideo := sync.2
  if enabled then
    let s1 :=
      if !s.xml_loaded || useCommaVideo then
        let filename := st1.video_file
        let sa := if filename ≠ s.lineFilename || useCommaVideo then loadFile s filename else s
        { sa with lineEditReference := st1.curve_name, geometry := st1.geometry }
      else s
    ({ s1 with hidden := false }, st1)
  else
    ({ s with hidden := true },
     { st1 with video_file := s.lineFilename, curve_name := s.lineEditReference,
                geometry := s.geometry })

/-- The `config` element written by `xmlSaveState`: its three attributes
`video_file`, `curve_name` and `use_frame` (the last serialized as the string
`true` or `false`). -/
structure VideoConfig where
  video_file : String
  curve_name : String
  use_frame : String
deriving DecidableEq, Repr

/-- `PublisherVideo::xmlSaveState`: create a `config` element carrying the
media path, the curve name and the frame flag, append it to the parent and
return `true`. -/
def xmlSaveState (s : PublisherVideo) : Bool × VideoConfig :=
  (true,
   { video_file := s.lineFilename,
     curve_name := s.lineEditReference,
     use_frame := if s.useFrame then "true" else "false" })

/-- `PublisherVideo::xmlLoadState`: when the parent has no `config` child
return `false` and change nothing; otherwise load the media file, restore the
curve name, set the frame/time radio buttons from `use_frame`, mark
`_xml_loaded` and return `true`. -/
def xmlLoadState (s : PublisherVideo) (parent : Option VideoConfig) :
    Bool × PublisherVideo :=
  match parent with
  | none => (false, s)
  | some config =>
    (true,
     { loadFile s config.video_file with
         lineEditReference := config.curve_name,
         useFrame := config.use_frame = "true",
         xml_loaded := true })

/-- A parsed XML element: node name, names of the attributes it carries, and
its child elements (non-element child nodes are skipped, as
`firstChildElement`/`nextSiblingElement` do). -/
inductive Elem : Type where
  | node : String → List String → List Elem → Elem

/-- Node name of an element. -/
def Elem.name : Elem → String
  | .node n _ _ => n

/-- Attribute names carried by an element. -/
def Elem.attrs : Elem → List String
  | .node _ a _ => a

/-- Child elements of an element. -/
def Elem.children : Elem → List Elem
  | .node _ _ c => c

/-- The inner-loop check of `RuleEditing::isValidXml`: a child of a `RosType`
element must be named `rule` and carry the attributes `pattern`, `alias` and
`substitution`. -/
def ruleOk (e : Elem) : Bool :=
  e.name == "rule" && e.attrs.contains "pattern" && e.attrs.contains "alias"
    && e.attrs.contains "substitution"

/-- The outer-loop check of `RuleEditing::isValidXml`: a child of the root
must be named `RosType`, carry a `name` attribute, and all its child elements
must pass `ruleOk`. -/
def rosTypeOk (e : Elem) : Bool :=
  e.name == "RosType" && e.attrs.contains "name" && e.children.all ruleOk

/-- `RuleEditing::isValidXml`: the editor text must parse (`none` models a
parse failure), the document's root element must be named `SubstitutionRules`,
and every child element must pass `rosTypeOk`; the checks short-circuit at the
first failure exactly as the loops return early. -/
def isValidXml (doc : Option Elem) : Bool :=
  match doc with
  | none => false
  | some root => root.name == "SubstitutionRules" && root.children.all rosTypeOk

/-! ## Sampling lemmas -/

/-- On a non-empty series `getYfromX` returns the walked value. -/
lemma getYfromX_ne_nil (points : List (ℚ × ℚ)) (hne : points ≠ []) (x : ℚ) :
    getYfromX points x = some (sampleAt points x) := by
  cases points with
  | nil => exact absurd rfl hne
  | cons h t => rfl

/-- Samples whose timestamps lie strictly before the query are skipped by the
walk, as long as the next retained sample also lies strictly before it. -/
lemma sampleAt_append_skip (x t0 v0 : ℚ) (rest : List (ℚ × ℚ)) :
    ∀ pre : List (ℚ × ℚ), (∀ p ∈ pre, p.1 < x) → t0 < x →
      sampleAt (pre ++ (t0, v0) :: rest) x = sampleAt ((t0, v0) :: rest) x := by
  intro pre
  induction pre with
  | nil => intro _ _; rfl
  | cons ab pre ih =>
    intro hpre ht0
    obtain ⟨a, b⟩ := ab
    have ha : a < x := hpre (a, b) (List.mem_cons_self _ _)
    cases pre with
    | nil =>
      simp only [List.nil_append, List.cons_append]
      rw [sampleAt]
      rw [if_neg (not_le.mpr ha), if_neg (not_le.mpr ht0)]
    | cons q pre2 =>
      obtain ⟨qa, qb⟩ := q
      have hq : qa < x := hpre (qa, qb) (List.mem_cons_of_mem _ (List.mem_cons_self _ _))
      have step : sampleAt ((a, b) :: (qa, qb) :: (pre2 ++ (t0, v0) :: rest)) x
          = sampleAt ((qa, qb) :: (pre2 ++ (t0, v0) :: rest)) x := by
        rw [sampleAt]
        rw [if_neg (not_le.mpr ha), if_neg (not_le.mpr hq)]
      simp only [List.cons_append] at step ⊢
      rw [step]
      exact ih (fun p hp => hpre p (List.mem_cons_of_mem _ hp)) ht0

/-- A query at or before the first timestamp yields the first value. -/
lemma sampleAt_low (t0 v0 : ℚ) (rest : List (ℚ × ℚ)) (x : ℚ) (h : x ≤ t0) :
    sampleAt ((t0, v0) :: rest) x = v0 := by
  cases rest with
  | nil => rfl
  | cons p1 rest2 =>
    obtain ⟨t1, v1⟩ := p1
    rw [sampleAt, if_pos h]

/-- On a series sorted by timestamp, a query after the last timestamp yields
the last value. -/
lemma sampleAt_high :
    ∀ (points : List (ℚ × ℚ)) (pl : ℚ × ℚ) (x : ℚ),
      List.Sorted (fun p q : ℚ × ℚ => p.1 ≤ q.1) points →
      points.getLast? = some pl → pl.1 < x →
      sampleAt points x = pl.2 := by
  intro points
  induction points with
  | nil => intro pl x _ hlast _; simp at hlast
  | cons p0 tail ih =>
    intro pl x hsort hlast hx
    obtain ⟨t0, v0⟩ := p0
    cases tail with
    | nil =>
      simp only [List.getLast?_singleton, Option.some_inj] at hlast
      rw [← hlast]
      rfl
    | cons p1 rest =>
      obtain ⟨t1, v1⟩ := p1
      have hlast2 : ((t1, v1) :: rest).getLast? = some pl := by
        rw [← hlast, List.getLast?_cons_cons]
      have hmem : pl ∈ (t1, v1) :: rest := by
        obtain ⟨hne, heq⟩ := List.mem_getLast?_eq_getLast (Option.mem_def.mpr hlast2)
        rw [heq]
        exact List.getLast_mem hne
      rw [List.sorted_cons] at hsort
      have h0l : t0 ≤ pl.1 := hsort.1 pl hmem
      have h1l : t1 ≤ pl.1 := by
        rcases List.mem_cons.mp hmem with h | h
        · rw [h]
        · have hs2 := hsort.2
          rw [List.sorted_cons] at hs2
          exact hs2.1 pl h
      rw [sampleAt]
      rw [if_neg (not_le.mpr (lt_of_le_of_lt h0l hx)),
          if_neg (not_le.mpr (lt_of_le_of_lt h1l hx))]
      exact ih pl x hsort.2 hlast2 hx

/-! ## Claim theorems -/

/-- C1: on a series with strictly increasing timestamps, for a query time
strictly between two consecutive samples `(t0, v0)` and `(t1, v1)`,
`getYfromX` returns `v0 + (v1 - v0) * (x - t0) / (t1 - t0)`; and for a query
time exactly equal to a sample's timestamp it returns that sample's value
exactly. -/
theorem getYfromX_interpolation :
    (∀ (pre post : List (ℚ × ℚ)) (t0 v0 t1 v1 x : ℚ),
        List.Sorted (fun p q : ℚ × ℚ => p.1 < q.1)
          (pre ++ (t0, v0) :: (t1, v1) :: post) →
        t0 < x → x < t1 →
        getYfromX (pre ++ (t0, v0) :: (t1, v1) :: post) x
          = some (v0 + (v1 - v0) * (x - t0) / (t1 - t0))) ∧
    (∀ (pre post : List (ℚ × ℚ)) (t v x : ℚ),
        List.Sorted (fun p q : ℚ × ℚ => p.1 < q.1) (pre ++ (t, v) :: post) →
        x = t →
        getYfromX (pre ++ (t, v) :: post) x = some v) := by
  constructor
  · intro pre post t0 v0 t1 v1 x hsort h0 h1
    rw [getYfromX_ne_nil _ (List.append_ne_nil_of_right_ne_nil _ (List.cons_ne_nil _ _)) x]
    have hpre : ∀ p ∈ pre, p.1 < x := by
      intro p hp
      have hlt : p.1 < t0 :=
        (List.pairwise_append.mp hsort).2.2 p hp (t0, v0) (List.mem_cons_self _ _)
      exact lt_trans hlt h0
    rw [sampleAt_append_skip x t0 v0 ((t1, v1) :: post) pre hpre h0]
    rw [sampleAt]
    rw [if_neg (not_le.mpr h0), if_pos (le_of_lt h1)]
  · intro pre post t v x hsort hx
    subst hx
    rw [getYfromX_ne_nil _ (List.append_ne_nil_of_right_ne_nil _ (List.cons_ne_nil _ _)) x]
    rcases List.eq_nil_or_concat pre with rfl | ⟨pre0, ab, rfl⟩
    · cases post with
      | nil => rfl
      | cons p1 post2 =>
        obtain ⟨t1, v1⟩ := p1
        simp only [List.nil_append]
        rw [sampleAt]
        rw [if_pos le_rfl]
    · obtain ⟨a, b⟩ := ab
      have hsort2 : List.Sorted (fun p q : ℚ × ℚ => p.1 < q.1)
          (pre0 ++ (a, b) :: (x, v) :: post) := by
        simpa [List.append_assoc] using hsort
      have hax : a < x := by
        have hp2 := (List.pairwise_append.mp hsort2).2.1
        rw [List.pairwise_cons] at hp2
        exact hp2.1 (x, v) (List.mem_cons_self _ _)
      have hpre : ∀ p ∈ pre0, p.1 < x := by
        intro p hp
        have hlt : p.1 < a :=
          (List.pairwise_append.mp hsort2).2.2 p hp (a, b) (List.mem_cons_self _ _)
        exact lt_trans hlt hax
      have hlist : pre0.concat (a, b) ++ (x, v) :: post
          = pre0 ++ (a, b) :: (x, v) :: post := by
        simp [List.concat_eq_append, List.append_assoc]
      rw [hlist, sampleAt_append_skip x a b ((x, v) :: post) pre0 hpre hax]
      rw [sampleAt]
      rw [if_neg (not_le.mpr hax), if_pos le_rfl]
      have hne : x - a ≠ 0 := sub_ne_zero.mpr (ne_of_gt hax)
      rw [mul_div_assoc, div_self hne, mul_one]
      rw [Option.some_inj]
      ring

/-- C2: on a non-empty series sorted by timestamp, a query before the first
sample's timestamp returns the first sample's value and a query after the
last sample's timestamp returns the last sample's value — the result is
clamped, never extrapolated. -/
theorem getYfromX_clamped (points : List (ℚ × ℚ)) (p0 pl : ℚ × ℚ) (x : ℚ)
    (hsort : List.Sorted (fun p q : ℚ × ℚ => p.1 ≤ q.1) points)
    (hhead : points.head? = some p0) (hlast : points.getLast? = some pl) :
    (x < p0.1 → getYfromX points x = some p0.2)
    ∧ (pl.1 < x → getYfromX points x = some pl.2) := by
  cases points with
  | nil => simp at hhead
  | cons q tail =>
    obtain ⟨t0, v0⟩ := q
    simp only [List.head?_cons, Option.some_inj] at hhead
    constructor
    · intro hx
      rw [getYfromX_ne_nil _ (List.cons_ne_nil _ _) x]
      rw [← hhead] at hx ⊢
      rw [sampleAt_low t0 v0 tail x (le_of_lt hx)]
    · intro hx
      rw [getYfromX_ne_nil _ (List.cons_ne_nil _ _) x]
      rw [sampleAt_high ((t0, v0) :: tail) pl x hsort hlast hx]

/-- Witness for C2 at the spec's example series `[(0, 10), (1, 20)]`:
query `-1` clamps to `10` and query `5` clamps to `20`. -/
theorem getYfromX_clamped_witness :
    getYfromX [((0 : ℚ), 10), (1, 20)] (-1) = some 10
    ∧ getYfromX [((0 : ℚ), 10), (1, 20)] 5 = some 20 := by
  constructor
  · have h := (getYfromX_clamped [((0 : ℚ), 10), (1, 20)] (0, 10) (1, 20) (-1)
      (by norm_num [List.sorted_cons]) rfl rfl).1 (by norm_num)
    exact h
  · have h := (getYfromX_clamped [((0 : ℚ), 10), (1, 20)] (0, 10) (1, 20) 5
      (by norm_num [List.sorted_cons]) rfl rfl).2 (by norm_num)
    exact h

/-- Witness for C1 at the spec's example series `[(0, 10), (1, 20)]`:
query `1/2` interpolates to `15`, and query `1` hits the sample `(1, 20)`
exactly. -/
theorem getYfromX_interpolation_witness :
    getYfromX [((0 : ℚ), 10), (1, 20)] (1 / 2) = some 15
    ∧ getYfromX [((0 : ℚ), 10), (1, 20)] 1 = some 20 := by
  constructor
  · have h := getYfromX_interpolation.1 [] [] 0 10 1 20 (1 / 2)
      (by norm_num [List.sorted_cons]) (by norm_num) (by norm_num)
    norm_num at h
    exact h
  · have h := getYfromX_interpolation.2 [((0 : ℚ), 10)] [] 1 20 1
      (by norm_num [List.sorted_cons]) rfl
    simpa using h

/-- While the media stream is already paused, a tick never emits a pause
call, whichever branch `updateState` takes. -/
lemma updateState_no_pause_of_paused (s : PublisherVideo) (u : ℚ)
    (hp : s.paused = true) : ∀ b, Effect.pause b ∉ (updateState s u).2 := by
  intro b
  unfold updateState
  split
  · simp
  · split
    · simp
    · split
      · simp
      · split
        · simp
        · simp [hp]

/-- C5: when the dialog is hidden or no reference curve is selected,
`updateState` leaves the state unchanged and produces the empty trace: no
series lookup, no sampling, no pause and no seek happen. -/
theorem updateState_inactive (s : PublisherVideo) (t : ℚ)
    (h : s.hidden = true ∨ s.lineEditReference = "") :
    updateState s t = (s, []) := by
  rcases h with h | h
  · simp [updateState, h]
  · unfold updateState
    split
    · rfl
    · simp [h]

/-- Witness for C5: a hidden dialog makes the tick a complete no-op. -/
theorem updateState_inactive_witness :
    updateState
      { hidden := true, paused := false, lineFilename := "", lineEditReference := "c",
        useFrame := false, xml_loaded := false, geometry := "", datamap := [] } 3
      = ({ hidden := true, paused := false, lineFilename := "", lineEditReference := "c",
           useFrame := false, xml_loaded := false, geometry := "", datamap := [] }, []) :=
  updateState_inactive _ 3 (Or.inl rfl)

/-- C3: when the configured series name does not resolve, or resolves to a
series with zero samples, the tick performs no pause and no seek, leaves the
state unchanged, and returns normally. -/
theorem updateState_missing_or_empty (s : PublisherVideo) (t : ℚ)
    (h : lookupNumeric s.datamap s.lineEditReference = none
       ∨ lookupNumeric s.datamap s.lineEditReference = some []) :
    (updateState s t).1 = s
    ∧ (∀ b, Effect.pause b ∉ (updateState s t).2)
    ∧ (∀ v, Effect.seek v ∉ (updateState s t).2) := by
  unfold updateState
  split
  · simp
  · split
    · simp
    · rcases h with h | h
      · rw [h]
        simp
      · rw [h]
        simp [getYfromX]

/-- Witness for C3: with an empty series map the lookup fails and the tick
changes nothing. -/
theorem updateState_missing_or_empty_witness :
    (updateState
      { hidden := false, paused := false, lineFilename := "", lineEditReference := "c",
        useFrame := false, xml_loaded := false, geometry := "", datamap := [] } 0).1
      = { hidden := false, paused := false, lineFilename := "", lineEditReference := "c",
          useFrame := false, xml_loaded := false, geometry := "", datamap := [] }
    ∧ Effect.pause true ∉ (updateState
      { hidden := false, paused := false, lineFilename := "", lineEditReference := "c",
        useFrame := false, xml_loaded := false, geometry := "", datamap := [] } 0).2
    ∧ Effect.seek 0 ∉ (updateState
      { hidden := false, paused := false, lineFilename := "", lineEditReference := "c",
        useFrame := false, xml_loaded := false, geometry := "", datamap := [] } 0).2 := by
  have H := updateState_missing_or_empty
    { hidden := false, paused := false, lineFilename := "", lineEditReference := "c",
      useFrame := false, xml_loaded := false, geometry := "", datamap := [] } 0 (Or.inl rfl)
  exact ⟨H.1, H.2.1 true, H.2.2 0⟩

/-- C4: whenever a tick applies a seek, the media stream is paused by the time
the seek happens — the trace pauses right before seeking when the stream was
playing, does not re-invoke `pause(true)` when it was already paused, and a
second consecutive tick (with no intervening un-pause) never emits
`pause(true)` again. -/
theorem drive_pauses_before_seek (s : PublisherVideo) (t u v : ℚ)
    (h : Effect.seek v ∈ (updateState s t).2) :
    (updateState s t).1.paused = true
    ∧ (s.paused = false →
        (updateState s t).2 = [Effect.lookup s.lineEditReference, Effect.sample t,
                               Effect.pause true, Effect.seek v])
    ∧ (s.paused = true →
        (updateState s t).2 = [Effect.lookup s.lineEditReference, Effect.sample t,
                               Effect.seek v])
    ∧ (∀ b, Effect.pause b ∉ (updateState (updateState s t).1 u).2) := by
  by_cases hh : s.hidden = true
  · rw [show updateState s t = (s, []) from by simp [updateState, hh]] at h
    simp at h
  · by_cases hr : s.lineEditReference = ""
    · rw [show updateState s t = (s, []) from by unfold updateState; simp [hh, hr]] at h
      simp at h
    · cases hl : lookupNumeric s.datamap s.lineEditReference with
      | none =>
        rw [show updateState s t = (s, [Effect.lookup s.lineEditReference]) from by
          unfold updateState; simp [hh, hr, hl]] at h
        simp at h
      | some data =>
        cases hy : getYfromX data t with
        | none =>
          rw [show updateState s t
              = (s, [Effect.lookup s.lineEditReference, Effect.sample t]) from by
            unfold updateState; simp [hh, hr, hl, hy]] at h
          simp at h
        | some w =>
          by_cases hp : s.paused = true
          · have hstate : updateState s t
                = (s, [Effect.lookup s.lineEditReference, Effect.sample t,
                       Effect.seek w]) := by
              unfold updateState
              simp [hh, hr, hl, hy, hp]
            have hvw : v = w := by
              rw [hstate] at h
              simpa using h
            subst hvw
            refine ⟨by rw [hstate]; exact hp, ?_, ?_, ?_⟩
            · intro hpf
              rw [hpf] at hp
              exact Bool.noConfusion hp
            · intro _
              rw [hstate]
            · intro b
              rw [hstate]
              exact updateState_no_pause_of_paused s u hp b
          · have hp2 : s.paused = false := Bool.eq_false_iff.mpr hp
            have hstate : updateState s t
                = ({ s with paused := true },
                   [Effect.lookup s.lineEditReference, Effect.sample t,
                    Effect.pause true, Effect.seek w]) := by
              unfold updateState
              simp [hh, hr, hl, hy, hp2]
            have hvw : v = w := by
              rw [hstate] at h
              simpa using h
            subst hvw
            refine ⟨by rw [hstate], ?_, ?_, ?_⟩
            · intro _
              rw [hstate]
            · intro hpt
              rw [hpt] at hp2
              exact Bool.noConfusion hp2
            · intro b
              rw [hstate]
              exact updateState_no_pause_of_paused { s with paused := true } u rfl b

/-- Witness for C4: a live tick on the spec's example series at query `1/2`
seeks to `15` after pausing, and a second tick emits no further pause. -/
theorem drive_pauses_before_seek_witness :
    (updateState
      { hidden := false, paused := false, lineFilename := "", lineEditReference := "c",
        useFrame := false, xml_loaded := false, geometry := "",
        datamap := [("c", [(0, 10), (1, 20)])] } (1 / 2)).1.paused = true
    ∧ (updateState
      { hidden := false, paused := false, lineFilename := "", lineEditReference := "c",
        useFrame := false, xml_loaded := false, geometry := "",
        datamap := [("c", [(0, 10), (1, 20)])] } (1 / 2)).2
      = [Effect.lookup "c", Effect.sample (1 / 2), Effect.pause true, Effect.seek 15]
    ∧ Effect.pause true ∉ (updateState
        (updateState
          { hidden := false, paused := false, lineFilename := "", lineEditReference := "c",
            useFrame := false, xml_loaded := false, geometry := "",
            datamap := [("c", [(0, 10), (1, 20)])] } (1 / 2)).1 2).2 := by
  have H := drive_pauses_before_seek
    { hidden := false, paused := false, lineFilename := "", lineEditReference := "c",
      useFrame := false, xml_loaded := false, geometry := "",
      datamap := [("c", [(0, 10), (1, 20)])] } (1 / 2) 2 15
    (by
      have hcs : (("c" : String) = "") ↔ False := iff_false_intro (by decide)
      norm_num [updateState, lookupNumeric, getYfromX, sampleAt, hcs])
  exact ⟨H.1, H.2.1 rfl, H.2.2.2 true⟩

/-- C6 counterexample: with a previously loaded XML state and no forcing
environment, `setEnabled true` does not load the curve name from the
persisted store — the claim that enabling always loads from the store fails
here. -/
theorem setEnabled_load_counterexample :
    ¬ ((setEnabled (none, none) true
        { hidden := true, paused := false, lineFilename := "f", lineEditReference := "a",
          useFrame := false, xml_loaded := true, geometry := "g", datamap := [] }
        { video_file := "f2", curve_name := "b", geometry := "h" }).1.lineEditReference
      = "b") := by
  simp [setEnabled, commaLoadVideoFromEnvironment, loadFile]

/-- C6 (amended): disabling always saves the media path and the curve name to
the persisted store; enabling loads and applies them from the store (after the
environment sync) exactly when no XML state was previously loaded or the
environment forces a video — otherwise enabling keeps the component's current
values, changing nothing but the dialog's visibility. -/
theorem setEnabled_saves_and_loads (env : Option String × Option String)
    (s : PublisherVideo) (st : Settings) :
    (setEnabled env false s st).2.video_file = s.lineFilename
    ∧ (setEnabled env false s st).2.curve_name = s.lineEditReference
    ∧ ((s.xml_loaded = false ∨ (commaLoadVideoFromEnvironment env st).2 = true) →
        (setEnabled env true s st).1.lineEditReference
          = (commaLoadVideoFromEnvironment env st).1.curve_name
        ∧ (setEnabled env true s st).1.lineFilename
          = (commaLoadVideoFromEnvironment env st).1.video_file)
    ∧ ((s.xml_loaded = true ∧ (commaLoadVideoFromEnvironment env st).2 = false) →
        (setEnabled env true s st).1 = { s with hidden := false }) := by
  refine ⟨rfl, rfl, ?_, ?_⟩
  case refine_2 =>
    rintro ⟨hx, hc⟩
    have hcond : (!s.xml_loaded || (commaLoadVideoFromEnvironment env st).2) = false := by
      simp [hx, hc]
    unfold setEnabled
    simp [hcond]
  intro h
  have hcond : (!s.xml_loaded || (commaLoadVideoFromEnvironment env st).2) = true := by
    rcases h with h | h
    · rw [h]
      rfl
    · rw [h]
      simp
  unfold setEnabled
  simp only [if_pos rfl, hcond, if_true]
  by_cases hf : (commaLoadVideoFromEnvironment env st).1.video_file ≠ s.lineFilename
      ∨ (commaLoadVideoFromEnvironment env st).2 = true
  · have hb : (decide ((commaLoadVideoFromEnvironment env st).1.video_file ≠ s.lineFilename)
        || (commaLoadVideoFromEnvironment env st).2) = true := by
      rcases hf with hf | hf
      · simp [hf]
      · simp [hf]
    simp [hb, loadFile]
    rw [if_pos hf]
  · push_neg at hf
    have hb : (decide ((commaLoadVideoFromEnvironment env st).1.video_file ≠ s.lineFilename)
        || (commaLoadVideoFromEnvironment env st).2) = false := by
      simp [hf.1, hf.2]
    simp [hb, hf.1]
    rw [if_neg hf.2]

/-- Witness for C6 (amended): a fresh component (no XML state, no
environment) enabled against a concrete store picks up the stored path and
curve name, disabling writes the component's values back, and a component
with a loaded XML state keeps its own values when enabled, only becoming
visible. -/
theorem setEnabled_saves_and_loads_witness :
    (setEnabled (none, none) false
      { hidden := false, paused := false, lineFilename := "f", lineEditReference := "a",
        useFrame := false, xml_loaded := false, geometry := "g", datamap := [] }
      { video_file := "f2", curve_name := "b", geometry := "h" }).2.video_file = "f"
    ∧ (setEnabled (none, none) false
      { hidden := false, paused := false, lineFilename := "f", lineEditReference := "a",
        useFrame := false, xml_loaded := false, geometry := "g", datamap := [] }
      { video_file := "f2", curve_name := "b", geometry := "h" }).2.curve_name = "a"
    ∧ ((setEnabled (none, none) true
      { hidden := false, paused := false, lineFilename := "f", lineEditReference := "a",
        useFrame := false, xml_loaded := false, geometry := "g", datamap := [] }
      { video_file := "f2", curve_name := "b", geometry := "h" }).1.lineEditReference = "b"
      ∧ (setEnabled (none, none) true
      { hidden := false, paused := false, lineFilename := "f", lineEditReference := "a",
        useFrame := false, xml_loaded := false, geometry := "g", datamap := [] }
      { video_file := "f2", curve_name := "b", geometry := "h" }).1.lineFilename = "f2")
    ∧ (setEnabled (none, none) true
      { hidden := true, paused := false, lineFilename := "f", lineEditReference := "a",
        useFrame := false, xml_loaded := true, geometry := "g", datamap := [] }
      { video_file := "f2", curve_name := "b", geometry := "h" }).1
      = { hidden := false, paused := false, lineFilename := "f", lineEditReference := "a",
          useFrame := false, xml_loaded := true, geometry := "g", datamap := [] } := by
  have H := setEnabled_saves_and_loads (none, none)
    { hidden := false, paused := false, lineFilename := "f", lineEditReference := "a",
      useFrame := false, xml_loaded := false, geometry := "g", datamap := [] }
    { video_file := "f2", curve_name := "b", geometry := "h" }
  have K := setEnabled_saves_and_loads (none, none)
    { hidden := true, paused := false, lineFilename := "f", lineEditReference := "a",
      useFrame := false, xml_loaded := true, geometry := "g", datamap := [] }
    { video_file := "f2", curve_name := "b", geometry := "h" }
  exact ⟨H.1, H.2.1, H.2.2.1 (Or.inl rfl), K.2.2.2 ⟨rfl, rfl⟩⟩

/-- C7: `xmlSaveState` serializes the media path, the curve name and the
`use_frame` flag into the `config` element and returns `true`; `xmlLoadState`
applied to that element returns `true` and restores the same three values in
any starting state. -/
theorem xml_save_load_roundtrip (s s2 : PublisherVideo) :
    (xmlSaveState s).1 = true
    ∧ (xmlLoadState s2 (some (xmlSaveState s).2)).1 = true
    ∧ (xmlLoadState s2 (some (xmlSaveState s).2)).2.lineFilename = s.lineFilename
    ∧ (xmlLoadState s2 (some (xmlSaveState s).2)).2.lineEditReference = s.lineEditReference
    ∧ (xmlLoadState s2 (some (xmlSaveState s).2)).2.useFrame = s.useFrame := by
  refine ⟨rfl, rfl, rfl, rfl, ?_⟩
  cases h : s.useFrame <;> simp [xmlSaveState, xmlLoadState, loadFile, h]

/-- C8: on a parent with no `config` child, `xmlLoadState` returns `false`
and leaves the component state unchanged. -/
theorem xmlLoadState_missing_config (s : PublisherVideo) :
    xmlLoadState s none = (false, s) :=
  rfl

/-- C9: `play` delegates to `updateState`: same resulting state and same
trace of side effects for every state and time. -/
theorem play_delegates_to_updateState (s : PublisherVideo) (t : ℚ) :
    play s t = updateState s t :=
  rfl

/-- C10: `isValidXml` accepts exactly the well-formed documents whose root
element is named `SubstitutionRules`, whose child elements are all named
`RosType` and carry a `name` attribute, and whose grandchild elements are all
named `rule` and carry the attributes `pattern`, `alias` and `substitution`
(no `timestamp` attribute is required); every other input — including a parse
failure, modelled as `none` — is rejected. -/
theorem isValidXml_accepts_iff (doc : Option Elem) :
    isValidXml doc = true ↔
      ∃ root, doc = some root ∧ root.name = "SubstitutionRules"
        ∧ ∀ te ∈ root.children, te.name = "RosType"
            ∧ te.attrs.contains "name" = true
            ∧ ∀ re ∈ te.children, re.name = "rule"
                ∧ re.attrs.contains "pattern" = true
                ∧ re.attrs.contains "alias" = true
                ∧ re.attrs.contains "substitution" = true := by
  cases doc with
  | none => simp [isValidXml]
  | some root =>
    constructor
    · intro hv
      simp only [isValidXml, Bool.and_eq_true, beq_iff_eq, List.all_eq_true] at hv
      obtain ⟨hname, hall⟩ := hv
      refine ⟨root, rfl, hname, ?_⟩
      intro te hte
      have hte2 := hall te hte
      simp only [rosTypeOk, Bool.and_eq_true, beq_iff_eq, List.all_eq_true] at hte2
      refine ⟨hte2.1.1, hte2.1.2, ?_⟩
      intro re hre
      have hre2 := hte2.2 re hre
      simp only [ruleOk, Bool.and_eq_true, beq_iff_eq] at hre2
      exact ⟨hre2.1.1.1, hre2.1.1.2, hre2.1.2, hre2.2⟩
    · rintro ⟨r, hr, hname, hall⟩
      injection hr with hr2
      subst hr2
      simp only [isValidXml, Bool.and_eq_true, beq_iff_eq, List.all_eq_true]
      refine ⟨hname, ?_⟩
      intro te hte
      obtain ⟨h1, h2, h3⟩ := hall te hte
      simp only [rosTypeOk, Bool.and_eq_true, beq_iff_eq, List.all_eq_true]
      refine ⟨⟨h1, h2⟩, ?_⟩
      intro re hre
      obtain ⟨g1, g2, g3, g4⟩ := h3 re hre
      simp only [ruleOk, Bool.and_eq_true, beq_iff_eq]
      exact ⟨⟨⟨g1, g2⟩, g3⟩, g4⟩

end PlotJuggler
